import Mathlib

/-!
Verification of the storage/resolution core of the `url-shortener-ztm`
repository, a content-addressed short-URL store backed by SQLite
(`src/database/sqlite.rs`).  The SQL statements issued by each operation are
shallowly embedded as pure functions over an explicit database state; the
SHA-256 fingerprint (the `sha2` crate) is embedded in full.
-/

namespace UrlShortener

/-! ## SHA-256 (embedding of `sha256_bytes`, src/database/sqlite.rs lines 447-451) -/

/-- Truncation to a 32-bit word, the wrap-around arithmetic of SHA-256. -/
def w32 (n : Nat) : Nat := n % 4294967296

/-- Rotate a 32-bit word right by `n` bits. -/
def rotr (n x : Nat) : Nat := w32 ((x >>> n) ||| (x <<< (32 - n)))

/-- Bitwise complement within 32 bits. -/
def not32 (x : Nat) : Nat := 4294967295 ^^^ x

/-- Small sigma-0 message-schedule function of SHA-256. -/
def ssmall0 (x : Nat) : Nat := (rotr 7 x) ^^^ (rotr 18 x) ^^^ (x >>> 3)

/-- Small sigma-1 message-schedule function of SHA-256. -/
def ssmall1 (x : Nat) : Nat := (rotr 17 x) ^^^ (rotr 19 x) ^^^ (x >>> 10)

/-- Big sigma-0 compression function of SHA-256. -/
def sbig0 (x : Nat) : Nat := (rotr 2 x) ^^^ (rotr 13 x) ^^^ (rotr 22 x)

/-- Big sigma-1 compression function of SHA-256. -/
def sbig1 (x : Nat) : Nat := (rotr 6 x) ^^^ (rotr 11 x) ^^^ (rotr 25 x)

/-- Choice function of SHA-256. -/
def ch (e f g : Nat) : Nat := (e &&& f) ^^^ ((not32 e) &&& g)

/-- Majority function of SHA-256. -/
def maj (a b c : Nat) : Nat := (a &&& b) ^^^ (a &&& c) ^^^ (b &&& c)

/-- The 64 round constants of SHA-256 (FIPS 180-4, written in decimal). -/
def sha256K : List Nat :=
  [1116352408, 1899447441, 3049323471, 3921009573, 961987163, 1508970993,
   2453635748, 2870763221, 3624381080, 310598401, 607225278, 1426881987,
   1925078388, 2162078206, 2614888103, 3248222580, 3835390401, 4022224774,
   264347078, 604807628, 770255983, 1249150122, 1555081692, 1996064986,
   2554220882, 2821834349, 2952996808, 3210313671, 3336571891, 3584528711,
   113926993, 338241895, 666307205, 773529912, 1294757372, 1396182291,
   1695183700, 1986661051, 2177026350, 2456956037, 2730485921, 2820302411,
   3259730800, 3345764771, 3516065817, 3600352804, 4094571909, 275423344,
   430227734, 506948616, 659060556, 883997877, 958139571, 1322822218,
   1537002063, 1747873779, 1955562222, 2024104815, 2227730452, 2361852424,
   2428436474, 2756734187, 3204031479, 3329325298]

/-- State of the SHA-256 hash: eight 32-bit words. -/
structure Hash8 where
  x0 : Nat
  x1 : Nat
  x2 : Nat
  x3 : Nat
  x4 : Nat
  x5 : Nat
  x6 : Nat
  x7 : Nat
deriving DecidableEq

/-- Initial hash value of SHA-256 (FIPS 180-4, written in decimal). -/
def sha256H0 : Hash8 :=
  ⟨1779033703, 3144134277, 1013904242, 2773480762,
   1359893119, 2600822924, 528734635, 1541459225⟩

/-- Working registers of one compression round. -/
structure Regs where
  a : Nat
  b : Nat
  c : Nat
  d : Nat
  e : Nat
  f : Nat
  g : Nat
  h : Nat
deriving DecidableEq

/-- One compression round of SHA-256 with round constant `k` and schedule word `w`. -/
def round (r : Regs) (k w : Nat) : Regs :=
  let t1 := w32 (r.h + sbig1 r.e + ch r.e r.f r.g + k + w)
  let t2 := w32 (sbig0 r.a + maj r.a r.b r.c)
  ⟨w32 (t1 + t2), r.a, r.b, r.c, w32 (r.d + t1), r.e, r.f, r.g⟩

/-- Group a byte list into big-endian 32-bit words, four bytes per word. -/
def toWords : List Nat → List Nat
  | b0 :: b1 :: b2 :: b3 :: rest =>
      (b0 * 16777216 + b1 * 65536 + b2 * 256 + b3) :: toWords rest
  | _ => []

/-- Extend a 16-word message schedule by `n` further words. -/
def extendW : Nat → List Nat → List Nat
  | 0, w => w
  | n + 1, w =>
      let len := w.length
      let next := w32 (ssmall1 (w.getD (len - 2) 0) + w.getD (len - 7) 0 +
                       ssmall0 (w.getD (len - 15) 0) + w.getD (len - 16) 0)
      extendW n (w ++ [next])

/-- Compress one 64-byte block into the running hash state. -/
def compressBlock (hs : Hash8) (block : List Nat) : Hash8 :=
  let ws := extendW 48 (toWords block)
  let r0 : Regs := ⟨hs.x0, hs.x1, hs.x2, hs.x3, hs.x4, hs.x5, hs.x6, hs.x7⟩
  let rf := (sha256K.zip ws).foldl (fun r kw => round r kw.1 kw.2) r0
  ⟨w32 (hs.x0 + rf.a), w32 (hs.x1 + rf.b), w32 (hs.x2 + rf.c), w32 (hs.x3 + rf.d),
   w32 (hs.x4 + rf.e), w32 (hs.x5 + rf.f), w32 (hs.x6 + rf.g), w32 (hs.x7 + rf.h)⟩

/-- Big-endian 8-byte encoding of the message bit length. -/
def lenBytes8 (n : Nat) : List Nat :=
  [(n >>> 56) % 256, (n >>> 48) % 256, (n >>> 40) % 256, (n >>> 32) % 256,
   (n >>> 24) % 256, (n >>> 16) % 256, (n >>> 8) % 256, n % 256]

/-- SHA-256 padding: append `0x80`, zeros to 56 mod 64, then the 64-bit bit length. -/
def pad (msg : List Nat) : List Nat :=
  msg ++ 128 :: (List.replicate ((119 - msg.length % 64) % 64) 0 ++ lenBytes8 (msg.length * 8))

/-- Split a byte list into 64-byte chunks, with a structural fuel bound so
that the kernel can evaluate it (the fuel is always sufficient: every step
consumes a nonempty list and at least one unit of fuel). -/
def chunks64Aux : Nat → List Nat → List (List Nat)
  | 0, _ => []
  | _ + 1, [] => []
  | fuel + 1, l => l.take 64 :: chunks64Aux fuel (l.drop 64)

/-- Split a byte list into 64-byte chunks. -/
def chunks64 (l : List Nat) : List (List Nat) := chunks64Aux l.length l

/-- Big-endian 4-byte encoding of one hash word. -/
def wordBytes (n : Nat) : List Nat :=
  [(n >>> 24) % 256, (n >>> 16) % 256, (n >>> 8) % 256, n % 256]

/-- Serialize the final hash state as 32 bytes. -/
def digestBytes (hs : Hash8) : List Nat :=
  wordBytes hs.x0 ++ wordBytes hs.x1 ++ wordBytes hs.x2 ++ wordBytes hs.x3 ++
  wordBytes hs.x4 ++ wordBytes hs.x5 ++ wordBytes hs.x6 ++ wordBytes hs.x7

/-- SHA-256 of a byte sequence. -/
def sha256 (msg : List Nat) : List Nat :=
  digestBytes ((chunks64 (pad msg)).foldl compressBlock sha256H0)

/-- UTF-8 encoding of one Unicode code point. -/
def utf8Bytes (c : Nat) : List Nat :=
  if c < 128 then [c]
  else if c < 2048 then [192 ||| (c >>> 6), 128 ||| (c &&& 63)]
  else if c < 65536 then
    [224 ||| (c >>> 12), 128 ||| ((c >>> 6) &&& 63), 128 ||| (c &&& 63)]
  else
    [240 ||| (c >>> 18), 128 ||| ((c >>> 12) &&& 63), 128 ||| ((c >>> 6) &&& 63), 128 ||| (c &&& 63)]

/-- UTF-8 bytes of a string, as `s.as_bytes()` sees them in Rust. -/
def strBytes (s : String) : List Nat := s.data.flatMap (fun c => utf8Bytes c.toNat)

/-- Embedding of `sha256_bytes` (src/database/sqlite.rs lines 447-451): the
content digest of a URL string, 32 bytes of SHA-256 over its UTF-8 bytes. -/
def sha256_bytes (s : String) : List Nat := sha256 (strBytes s)

/-! ## Data model

Rows of the three tables the operations touch.  The canonical `urls` table
carries `(id, code UNIQUE, url, url_hash UNIQUE)`; `id` is the SQLite
integer primary key, modelled by the monotone `next_id` counter of the
database state. -/

/-- One row of the canonical `urls` table. -/
structure UrlRow where
  id : Int
  code : String
  url : String
  url_hash : List Nat
deriving DecidableEq

/-- One row of the `aliases` table: column `alias` (UNIQUE) and column
`target_id` referencing `urls.id`. -/
structure AliasRow where
  alias_code : String
  target_id : Int
deriving DecidableEq

/-- One row of the `bloom_snapshots` table: `(name UNIQUE, data, updated_at)`. -/
structure BloomRow where
  name : String
  data : List Nat
  updated_at : Nat
deriving DecidableEq

/-- The SQLite database state visible to the embedded operations. -/
structure SqliteDb where
  urls : List UrlRow
  aliases : List AliasRow
  bloom_snapshots : List BloomRow
  next_id : Int
deriving DecidableEq

/-- The `Urls` model row returned by `SELECT id, code FROM urls`
(crate::models::Urls). -/
structure Urls where
  id : Int
  code : String
deriving DecidableEq

/-- The `UpsertResult` model (crate::models::UpsertResult): the row id and
whether the conditional insert created it. -/
structure UpsertResult where
  id : Int
  created : Bool
deriving DecidableEq

/-- The `DatabaseError` taxonomy of the `database` module. -/
inductive DatabaseError where
  | NotFound
  | Duplicate
  | ConnectionError (msg : String)
  | QueryError (msg : String)
  | MigrationError (msg : String)
deriving DecidableEq

deriving instance DecidableEq for Except

/-! ## Error-string translation

`insert_url` and `insert_alias` inspect the sqlx error message and turn the
uniqueness violation of their own unique column into `Duplicate`; every
other message stays a `QueryError`. -/

/-- Check that `pat` occurs at the head of `l`. -/
def startsWithPat : List Char → List Char → Bool
  | _, [] => true
  | [], _ :: _ => false
  | c :: cs, p :: ps => c == p && startsWithPat cs ps

/-- Check that `pat` occurs somewhere inside `l`, as Rust's
`str::contains` does. -/
def hasSub (pat : List Char) : List Char → Bool
  | [] => startsWithPat [] pat
  | c :: rest => startsWithPat (c :: rest) pat || hasSub pat rest

/-- String containment test, `msg.contains(pat)` in Rust. -/
def containsSubstr (msg pat : String) : Bool := hasSub pat.data msg.data

/-- Embedding of the error-mapping closure of `insert_url`
(src/database/sqlite.rs lines 259-268): a message reporting the UNIQUE
violation on `urls.code` becomes `Duplicate`; anything else is wrapped as
`QueryError`. -/
def translate_insert_url_error (msg : String) : DatabaseError :=
  if containsSubstr msg "UNIQUE constraint failed: urls.code" then
    DatabaseError.Duplicate
  else
    DatabaseError.QueryError msg

/-- Embedding of the error-mapping closure of `insert_alias`
(src/database/sqlite.rs lines 352-359): a message reporting the UNIQUE
violation on `aliases.alias` becomes `Duplicate`; anything else is wrapped
as `QueryError`. -/
def translate_insert_alias_error (msg : String) : DatabaseError :=
  if containsSubstr msg "UNIQUE constraint failed: aliases.alias" then
    DatabaseError.Duplicate
  else
    DatabaseError.QueryError msg

/-! ## Operations -/

/-- Embedding of `insert_url` (src/database/sqlite.rs lines 243-284).  The
SQL is `INSERT INTO urls(code, url, url_hash) VALUES (?1, ?2, ?3) ON
CONFLICT(url_hash) DO NOTHING RETURNING id`: when a row with this digest
already exists the insert is skipped and the pre-existing row is fetched by
digest; when the digest is new but `code` violates its UNIQUE constraint the
error is translated to `Duplicate`; otherwise the row is inserted with a
fresh id and returned with `created := true`. -/
def insert_url (db : SqliteDb) (code url : String) :
    Except DatabaseError ((UpsertResult × Urls) × SqliteDb) :=
  let hash := sha256_bytes url
  if db.urls.any (fun r => r.url_hash == hash) then
    match db.urls.find? (fun r => r.url_hash == hash) with
    | some r =>
        Except.ok (({ id := r.id, created := false }, { id := r.id, code := r.code }), db)
    | none => Except.error (DatabaseError.QueryError "RowNotFound")
  else if db.urls.any (fun r => r.code == code) then
    Except.error DatabaseError.Duplicate
  else
    Except.ok
      (({ id := db.next_id, created := true }, { id := db.next_id, code := code }),
       { db with
          urls := db.urls ++ [{ id := db.next_id, code := code, url := url, url_hash := hash }],
          next_id := db.next_id + 1 })

/-- Embedding of `get_id_by_url` (src/database/sqlite.rs lines 200-213):
`SELECT id, code FROM urls WHERE url_hash = ? LIMIT 1`, `NotFound` when no
row matches. -/
def get_id_by_url (db : SqliteDb) (url : String) : Except DatabaseError Urls :=
  match db.urls.find? (fun r => r.url_hash == sha256_bytes url) with
  | some r => Except.ok { id := r.id, code := r.code }
  | none => Except.error DatabaseError.NotFound

/-- Modelled from the spec: the `all_short_codes` SQL view lives in the
repository's migrations, which are not under src/.  Per the spec it is the
read-time union of the canonical namespace and the alias namespace, an alias
resolving through `target_id` to the canonical URL; canonical entries come
first (the spec's recommended canonical-wins precedence).  Each entry pairs
a short code with the URL it resolves to. -/
def all_short_codes (db : SqliteDb) : List (String × String) :=
  db.urls.map (fun r => (r.code, r.url)) ++
  db.aliases.filterMap (fun a =>
    (db.urls.find? (fun r => r.id == a.target_id)).map (fun r => (a.alias_code, r.url)))

/-- Embedding of `get_url` (src/database/sqlite.rs lines 315-328):
`SELECT url FROM all_short_codes u WHERE u.code = ? LIMIT 1`, `NotFound`
when no row matches. -/
def get_url (db : SqliteDb) (code : String) : Except DatabaseError String :=
  match (all_short_codes db).find? (fun p => p.1 == code) with
  | some p => Except.ok p.2
  | none => Except.error DatabaseError.NotFound

/-- Interpretation of the `as i64` casts on the pagination arguments: a u64
value at or above 2^63 wraps to a negative i64. -/
def u64_to_i64 (n : Nat) : Int :=
  if n % 18446744073709551616 < 9223372036854775808 then
    ((n % 18446744073709551616 : Nat) : Int)
  else
    ((n % 18446744073709551616 : Nat) : Int) - 18446744073709551616

/-- Embedding of `list_short_codes` (src/database/sqlite.rs lines 330-344):
`SELECT code FROM all_short_codes LIMIT ? OFFSET ?` with the u64 arguments
cast to i64.  SQLite treats a negative LIMIT as no limit and a negative
OFFSET as zero. -/
def list_short_codes (db : SqliteDb) (offset limit : Nat) : List String :=
  let codes := (all_short_codes db).map (fun p => p.1)
  let l := u64_to_i64 limit
  let o := u64_to_i64 offset
  let dropped := if o ≤ 0 then codes else codes.drop o.toNat
  if l < 0 then dropped else dropped.take l.toNat

/-- Embedding of `insert_alias` (src/database/sqlite.rs lines 346-362):
`INSERT INTO aliases (alias, target_id) VALUES (?, ?)`.  A UNIQUE violation
on `aliases.alias` is translated to `Duplicate`.  The schema (modelled from
the spec's persisted shape, the migrations not being under src/) declares
`target_id REFERENCES urls.id`, and `get_connection_pool`
(src/database/sqlite.rs line 433) enables foreign-key enforcement, so a
nonexistent target id makes the insert fail with the untranslated
foreign-key error, a `QueryError`. -/
def insert_alias (db : SqliteDb) (alias_code : String) (code_id : Int) :
    Except DatabaseError SqliteDb :=
  if db.aliases.any (fun a => a.alias_code == alias_code) then
    Except.error (translate_insert_alias_error "UNIQUE constraint failed: aliases.alias")
  else if db.urls.any (fun r => r.id == code_id) then
    Except.ok { db with aliases := db.aliases ++ [{ alias_code := alias_code, target_id := code_id }] }
  else
    Except.error (translate_insert_alias_error "FOREIGN KEY constraint failed")

/-- Embedding of `load_bloom_snapshot` (src/database/sqlite.rs lines
364-374): `SELECT data FROM bloom_snapshots WHERE name = ? LIMIT 1` via
`fetch_optional`, so absence is `none`, not an error. -/
def load_bloom_snapshot (db : SqliteDb) (name : String) :
    Except DatabaseError (Option (List Nat)) :=
  Except.ok ((db.bloom_snapshots.find? (fun r => r.name == name)).map (fun r => r.data))

/-- Embedding of `save_bloom_snapshot` (src/database/sqlite.rs lines
376-394): `INSERT INTO bloom_snapshots (name, data, updated_at) VALUES (?1,
?2, CURRENT_TIMESTAMP) ON CONFLICT(name) DO UPDATE SET data = excluded.data,
updated_at = CURRENT_TIMESTAMP`.  The wall-clock timestamp is passed in as
`now`. -/
def save_bloom_snapshot (db : SqliteDb) (name : String) (data : List Nat) (now : Nat) :
    Except DatabaseError SqliteDb :=
  if db.bloom_snapshots.any (fun r => r.name == name) then
    Except.ok { db with
      bloom_snapshots := db.bloom_snapshots.map (fun r =>
        if r.name = name then { r with data := data, updated_at := now } else r) }
  else
    Except.ok { db with
      bloom_snapshots := db.bloom_snapshots ++ [{ name := name, data := data, updated_at := now }] }

/-- Referential integrity of the alias table: every alias targets an
existing canonical row. -/
def aliasIntegrity (db : SqliteDb) : Prop :=
  ∀ a ∈ db.aliases, ∃ r ∈ db.urls, r.id = a.target_id

/-- At most one bloom snapshot row per name. -/
def bloomNamesUnique (db : SqliteDb) : Prop :=
  db.bloom_snapshots.Pairwise (fun r s => r.name ≠ s.name)

/-! ## Concrete fixtures used by witnesses and counterexamples -/

/-- A canonical record for `https://example.com` under code `aaa111`. -/
def exRow1 : UrlRow :=
  { id := 1, code := "aaa111", url := "https://example.com",
    url_hash := sha256_bytes "https://example.com" }

/-- A canonical record for `https://rust-lang.org` under code `ddd444`. -/
def exRow2 : UrlRow :=
  { id := 2, code := "ddd444", url := "https://rust-lang.org",
    url_hash := sha256_bytes "https://rust-lang.org" }

/-- An alias `ccc333` for the first canonical record. -/
def exAlias : AliasRow := { alias_code := "ccc333", target_id := 1 }

/-- A small populated store: two canonical rows and one alias. -/
def dbEx : SqliteDb :=
  { urls := [exRow1, exRow2], aliases := [exAlias], bloom_snapshots := [], next_id := 3 }

/-- The empty store, as produced by a fresh migration. -/
def dbEmpty : SqliteDb := { urls := [], aliases := [], bloom_snapshots := [], next_id := 1 }

/-- The populated store with one bloom snapshot saved under `filterA`. -/
def dbF : SqliteDb :=
  { dbEx with bloom_snapshots := [{ name := "filterA", data := [1, 2], updated_at := 10 }] }

/-- The populated store after the `filterA` snapshot is overwritten. -/
def dbG : SqliteDb :=
  { dbEx with bloom_snapshots := [{ name := "filterA", data := [3], updated_at := 11 }] }

/-! ## Helper lemmas -/

/-- Finding in an append skips a prefix with no match. -/
theorem find_append_of_none {α : Type} {p : α → Bool} {l1 l2 : List α}
    (h : l1.find? p = none) : (l1 ++ l2).find? p = l2.find? p := by
  induction l1 with
  | nil => simp
  | cons a l ih =>
      rw [List.find?_cons] at h
      cases hpa : p a with
      | true => simp [hpa] at h
      | false =>
          rw [List.cons_append, List.find?_cons, hpa]
          exact ih (by simpa [hpa] using h)

/-- Every list is a prefix of itself under the character-wise test. -/
theorem startsWithPat_self (l : List Char) : startsWithPat l l = true := by
  induction l with
  | nil => rfl
  | cons c cs ih => simp [startsWithPat, ih]

/-- A string contains itself as a substring. -/
theorem containsSubstr_self (s : String) : containsSubstr s s = true := by
  unfold containsSubstr
  cases hd : s.data with
  | nil => rfl
  | cons c cs => simp [hasSub, startsWithPat_self]

/-! ## Claims -/

/-- C9: `sha256_bytes` is a pure deterministic function with no error
outcome: byte-identical inputs yield byte-identical digests, and every
digest is a fixed-size 32-byte sequence. -/
theorem sha256_bytes_deterministic_fixed_size (s t : String) (h : s = t) :
    sha256_bytes s = sha256_bytes t ∧ (sha256_bytes s).length = 32 := by
  subst h
  refine ⟨rfl, ?_⟩
  simp [sha256_bytes, sha256, digestBytes, wordBytes]

/-- Witness for C9 at the concrete input `"abc"`. -/
theorem sha256_bytes_deterministic_fixed_size_witness :
    sha256_bytes "abc" = sha256_bytes "abc" ∧ (sha256_bytes "abc").length = 32 :=
  sha256_bytes_deterministic_fixed_size "abc" "abc" rfl

/-- Sanity check of the embedding: the official SHA-256 test vector for
`"abc"`. -/
theorem sha256_bytes_abc_vector :
    sha256_bytes "abc" =
      [186, 120, 22, 191, 143, 1, 207, 234, 65, 65, 64, 222, 93, 174, 34, 35,
       176, 3, 97, 163, 150, 23, 122, 156, 180, 16, 255, 97, 242, 0, 21, 173] := by
  decide

/-- C2: when the supplied code already belongs to a record with a different
content digest, `insert_url` fails with `Duplicate`; and the error
translation turns exactly the messages reporting the UNIQUE violation on
`urls.code` into `Duplicate`, every other message into `QueryError`. -/
theorem insert_url_duplicate_code_translation :
    (∀ (db : SqliteDb) (code url : String),
        (∀ r ∈ db.urls, r.url_hash ≠ sha256_bytes url) →
        (∃ r ∈ db.urls, r.code = code) →
        insert_url db code url = Except.error DatabaseError.Duplicate) ∧
    (∀ msg : String,
        (translate_insert_url_error msg = DatabaseError.Duplicate ↔
          containsSubstr msg "UNIQUE constraint failed: urls.code" = true) ∧
        (containsSubstr msg "UNIQUE constraint failed: urls.code" = false →
          translate_insert_url_error msg = DatabaseError.QueryError msg)) := by
  constructor
  · intro db code url hhash hcode
    have h1 : db.urls.any (fun r => r.url_hash == sha256_bytes url) = false := by
      simp only [List.any_eq_false, beq_iff_eq]
      exact hhash
    have h2 : db.urls.any (fun r => r.code == code) = true := by
      simp only [List.any_eq_true, beq_iff_eq]
      exact hcode
    simp [insert_url, h1, h2]
  · intro msg
    unfold translate_insert_url_error
    cases h : containsSubstr msg "UNIQUE constraint failed: urls.code" with
    | true => simp [h]
    | false => simp [h]

/-- Witness for C2: `dbEx` uses code `aaa111` for `https://example.com`;
inserting a URL with a different digest under the same code fails with
`Duplicate`, while an unrelated error message stays a `QueryError`. -/
theorem insert_url_duplicate_code_translation_witness :
    insert_url dbEx "aaa111" "https://b.example" = Except.error DatabaseError.Duplicate ∧
    translate_insert_url_error "disk I/O error" = DatabaseError.QueryError "disk I/O error" :=
  ⟨insert_url_duplicate_code_translation.1 dbEx "aaa111" "https://b.example"
      (by decide) (by decide),
   (insert_url_duplicate_code_translation.2 "disk I/O error").2 (by decide)⟩

/-- C1 counterexample: `dbEx` does not contain the digest of
`https://b.example`, yet `insert_url` with the already-used code `aaa111`
returns the `Duplicate` error rather than `Created` with a new record, so
the claim's premise (digest absent) is not sufficient. -/
theorem insert_url_created_counterexample :
    (∀ r ∈ dbEx.urls, r.url_hash ≠ sha256_bytes "https://b.example") ∧
    ("aaa111" : String) ≠ "bbb222" ∧
    insert_url dbEx "aaa111" "https://b.example" = Except.error DatabaseError.Duplicate := by
  refine ⟨by decide, by decide, by decide⟩

/-- C1 (amended): on a store containing neither the digest of `u` nor the
code `code1`, `insert_url code1 u` returns `Created` with a new record whose
code is `code1`, and a subsequent `insert_url code2 u` returns `Existing`
with the identical stored record, leaving the store unchanged with exactly
one canonical row for that digest. -/
theorem insert_url_created_then_existing (db : SqliteDb) (code1 code2 url : String)
    (_hne : code1 ≠ code2)
    (hhash : ∀ r ∈ db.urls, r.url_hash ≠ sha256_bytes url)
    (hcode : ∀ r ∈ db.urls, r.code ≠ code1) :
    ∃ (db1 : SqliteDb) (rec : Urls),
      insert_url db code1 url =
        Except.ok (({ id := rec.id, created := true }, rec), db1) ∧
      rec.code = code1 ∧
      insert_url db1 code2 url =
        Except.ok (({ id := rec.id, created := false }, rec), db1) ∧
      (db1.urls.filter (fun r => r.url_hash == sha256_bytes url)).length = 1 := by
  have h1 : db.urls.any (fun r => r.url_hash == sha256_bytes url) = false := by
    simp only [List.any_eq_false, beq_iff_eq]
    exact hhash
  have h2 : db.urls.any (fun r => r.code == code1) = false := by
    simp only [List.any_eq_false, beq_iff_eq]
    exact hcode
  set row : UrlRow :=
    { id := db.next_id, code := code1, url := url, url_hash := sha256_bytes url } with hrow
  set db1 : SqliteDb :=
    { db with urls := db.urls ++ [row], next_id := db.next_id + 1 } with hdb1
  refine ⟨db1, { id := db.next_id, code := code1 }, ?_, rfl, ?_, ?_⟩
  · simp [insert_url, h1, h2, hdb1, hrow]
  · have h3 : db1.urls.any (fun r => r.url_hash == sha256_bytes url) = true := by
      simp only [List.any_eq_true]
      exact ⟨row, by simp [hdb1], by simp [hrow]⟩
    have hnone : db.urls.find? (fun r => r.url_hash == sha256_bytes url) = none := by
      rw [List.find?_eq_none]
      intro r hr
      simp only [beq_iff_eq]
      exact hhash r hr
    have h4 : db1.urls.find? (fun r => r.url_hash == sha256_bytes url) = some row := by
      show (db.urls ++ [row]).find? _ = some row
      rw [find_append_of_none hnone, List.find?_cons]
      simp [hrow]
    simp [insert_url, h3, h4, hrow]
  · show ((db.urls ++ [row]).filter (fun r => r.url_hash == sha256_bytes url)).length = 1
    have hfil : db.urls.filter (fun r => r.url_hash == sha256_bytes url) = [] := by
      rw [List.filter_eq_nil_iff]
      intro r hr
      simp only [beq_iff_eq]
      exact hhash r hr
    simp [List.filter_append, hfil, hrow]

/-- Witness for the amended C1 on the empty store, with the spec's own
example codes and URL. -/
theorem insert_url_created_then_existing_witness :
    ∃ (db1 : SqliteDb) (rec : Urls),
      insert_url dbEmpty "aaa111" "https://example.com" =
        Except.ok (({ id := rec.id, created := true }, rec), db1) ∧
      rec.code = "aaa111" ∧
      insert_url db1 "bbb222" "https://example.com" =
        Except.ok (({ id := rec.id, created := false }, rec), db1) ∧
      (db1.urls.filter (fun r => r.url_hash == sha256_bytes "https://example.com")).length = 1 :=
  insert_url_created_then_existing dbEmpty "aaa111" "bbb222" "https://example.com"
    (by decide) (by decide) (by decide)

/-- C10: every successful `insert_url` returns a consistent pair: the
`UpsertResult` id equals the returned record's id; when `created` is true
the record carries the caller's code and the store gained exactly that row;
when `created` is false the store is unchanged and the record is the
pre-existing row fetched by the same digest. -/
theorem insert_url_result_consistent (db : SqliteDb) (code url : String)
    (res : UpsertResult) (rec : Urls) (db' : SqliteDb)
    (h : insert_url db code url = Except.ok ((res, rec), db')) :
    res.id = rec.id ∧
    (res.created = true →
      rec.code = code ∧
      db'.urls = db.urls ++
        [{ id := rec.id, code := code, url := url, url_hash := sha256_bytes url }]) ∧
    (res.created = false →
      db' = db ∧
      ∃ r, db.urls.find? (fun t => t.url_hash == sha256_bytes url) = some r ∧
        rec = { id := r.id, code := r.code }) := by
  cases hany : db.urls.any (fun r => r.url_hash == sha256_bytes url) with
  | true =>
      cases hfind : db.urls.find? (fun r => r.url_hash == sha256_bytes url) with
      | none => simp [insert_url, hany, hfind] at h
      | some r =>
          simp only [insert_url, hany, hfind, if_true, Except.ok.injEq, Prod.mk.injEq] at h
          obtain ⟨⟨hres, hrec⟩, hdb⟩ := h
          subst hres hrec hdb
          refine ⟨rfl, ?_, ?_⟩
          · intro hc; cases hc
          · intro _
            exact ⟨rfl, r, rfl, rfl⟩
  | false =>
      cases hcode : db.urls.any (fun r => r.code == code) with
      | true => simp [insert_url, hany, hcode] at h
      | false =>
          simp only [insert_url, hany, hcode, if_false, Except.ok.injEq, Prod.mk.injEq,
            Bool.false_eq_true] at h
          obtain ⟨⟨hres, hrec⟩, hdb⟩ := h
          subst hres hrec hdb
          refine ⟨rfl, ?_, ?_⟩
          · intro _
            exact ⟨rfl, rfl⟩
          · intro hc; cases hc

/-- Witness for C10 on the empty store: the created case evaluated
concretely. -/
theorem insert_url_result_consistent_witness :
    ({ id := 1, created := true } : UpsertResult).id = ({ id := 1, code := "aaa111" } : Urls).id ∧
    (({ id := 1, created := true } : UpsertResult).created = true →
      ({ id := 1, code := "aaa111" } : Urls).code = "aaa111" ∧
      ({ dbEmpty with
          urls := dbEmpty.urls ++
            [{ id := 1, code := "aaa111", url := "https://example.com",
               url_hash := sha256_bytes "https://example.com" }],
          next_id := 2 } : SqliteDb).urls = dbEmpty.urls ++
        [{ id := ({ id := 1, code := "aaa111" } : Urls).id, code := "aaa111",
           url := "https://example.com", url_hash := sha256_bytes "https://example.com" }]) ∧
    (({ id := 1, created := true } : UpsertResult).created = false →
      ({ dbEmpty with
          urls := dbEmpty.urls ++
            [{ id := 1, code := "aaa111", url := "https://example.com",
               url_hash := sha256_bytes "https://example.com" }],
          next_id := 2 } : SqliteDb) = dbEmpty ∧
      ∃ r, dbEmpty.urls.find? (fun t => t.url_hash == sha256_bytes "https://example.com") = some r ∧
        ({ id := 1, code := "aaa111" } : Urls) = { id := r.id, code := r.code }) :=
  insert_url_result_consistent dbEmpty "aaa111" "https://example.com"
    { id := 1, created := true } { id := 1, code := "aaa111" }
    { dbEmpty with
        urls := dbEmpty.urls ++
          [{ id := 1, code := "aaa111", url := "https://example.com",
             url_hash := sha256_bytes "https://example.com" }],
        next_id := 2 }
    rfl

/-- C3: `get_url` resolves through the merged canonical-plus-alias view: it
fails with `NotFound` exactly when the code appears in neither namespace
(given referential integrity of the alias table), and any URL it returns is
paired with the code in that view. -/
theorem get_url_merged_view (db : SqliteDb) (c : String)
    (hwf : aliasIntegrity db) :
    (get_url db c = Except.error DatabaseError.NotFound ↔
      (∀ r ∈ db.urls, r.code ≠ c) ∧ (∀ a ∈ db.aliases, a.alias_code ≠ c)) ∧
    (∀ u, get_url db c = Except.ok u → (c, u) ∈ all_short_codes db) := by
  have key : (∀ p ∈ all_short_codes db, p.1 ≠ c) ↔
      ((∀ r ∈ db.urls, r.code ≠ c) ∧ (∀ a ∈ db.aliases, a.alias_code ≠ c)) := by
    constructor
    · intro h
      constructor
      · intro r hr
        exact h (r.code, r.url) (List.mem_append_left _ (List.mem_map.mpr ⟨r, hr, rfl⟩))
      · intro a ha
        obtain ⟨r, hr, hid⟩ := hwf a ha
        have hsome : (db.urls.find? (fun t => t.id == a.target_id)).isSome := by
          rw [List.find?_isSome]
          exact ⟨r, hr, by simp [hid]⟩
        obtain ⟨r', hr'⟩ := Option.isSome_iff_exists.mp hsome
        have hmem : (a.alias_code, r'.url) ∈ all_short_codes db := by
          apply List.mem_append_right
          rw [List.mem_filterMap]
          exact ⟨a, ha, by simp [hr']⟩
        exact h _ hmem
    · rintro ⟨h1, h2⟩ p hp
      rcases List.mem_append.mp hp with hl | hr
      · obtain ⟨r, hr, rfl⟩ := List.mem_map.mp hl
        exact h1 r hr
      · obtain ⟨a, ha, hfa⟩ := List.mem_filterMap.mp hr
        cases hfind : db.urls.find? (fun t => t.id == a.target_id) with
        | none => rw [hfind] at hfa; cases hfa
        | some r' =>
            rw [hfind] at hfa
            have hfa2 : (a.alias_code, r'.url) = p := by simpa using hfa
            subst hfa2
            exact h2 a ha
  have hiff : get_url db c = Except.error DatabaseError.NotFound ↔
      (all_short_codes db).find? (fun p => p.1 == c) = none := by
    unfold get_url
    cases hfind : (all_short_codes db).find? (fun p => p.1 == c) with
    | none => simp
    | some p => simp
  constructor
  · rw [hiff, List.find?_eq_none]
    simp only [beq_iff_eq]
    exact key
  · intro u hu
    unfold get_url at hu
    cases hfind : (all_short_codes db).find? (fun p => p.1 == c) with
    | none => rw [hfind] at hu; cases hu
    | some p =>
        rw [hfind] at hu
        simp only [Except.ok.injEq] at hu
        have hpc : p.1 = c := by
          have := List.find?_some hfind
          simpa using this
        have hpmem := List.mem_of_find?_eq_some hfind
        have : (c, u) = p := by
          cases p
          simp only [Prod.mk.injEq]
          exact ⟨hpc.symm, hu.symm⟩
        rw [this]
        exact hpmem

/-- Witness for C3: resolving the never-inserted code `bbb222` in the
populated store. -/
theorem get_url_merged_view_witness :
    (get_url dbEx "bbb222" = Except.error DatabaseError.NotFound ↔
      (∀ r ∈ dbEx.urls, r.code ≠ "bbb222") ∧ (∀ a ∈ dbEx.aliases, a.alias_code ≠ "bbb222")) ∧
    (∀ u, get_url dbEx "bbb222" = Except.ok u → ("bbb222", u) ∈ all_short_codes dbEx) :=
  get_url_merged_view dbEx "bbb222" (by unfold aliasIntegrity; decide)

/-- The u64-to-i64 cast is the identity below 2^63. -/
theorem u64_to_i64_small (n : Nat) (h : n < 9223372036854775808) :
    u64_to_i64 n = (n : Int) := by
  unfold u64_to_i64
  rw [Nat.mod_eq_of_lt (by omega)]
  simp [h]

/-- Below the i64 sign boundary, `list_short_codes` is the drop/take window
over the codes of the union view. -/
theorem list_short_codes_take_drop (db : SqliteDb) (off L : Nat)
    (hoff : off < 9223372036854775808) (hL : L < 9223372036854775808) :
    list_short_codes db off L =
      (((all_short_codes db).map (fun p => p.1)).drop off).take L := by
  unfold list_short_codes
  rw [u64_to_i64_small off hoff, u64_to_i64_small L hL]
  have hLnn : ¬((L : Int) < 0) := by omega
  by_cases h0 : off = 0
  · subst h0
    simp [hLnn]
  · have hoffpos : ¬((off : Int) ≤ 0) := by omega
    simp [hLnn, hoffpos]

/-- C6: for a static data set, consecutive `list_short_codes` windows of
width `L` enumerate the codes of the union view with no duplicate and no
skip: the concatenation of the first `k` windows is exactly the first
`k * L` codes, and once `k * L` covers the view it is exactly the whole
code list. -/
theorem list_short_codes_stable_windows (db : SqliteDb) (L k : Nat)
    (_hL : 0 < L) (hk : k * L < 9223372036854775808) :
    (List.range k).flatMap (fun i => list_short_codes db (i * L) L) =
      ((all_short_codes db).map (fun p => p.1)).take (k * L) ∧
    (((all_short_codes db).map (fun p => p.1)).length ≤ k * L →
      (List.range k).flatMap (fun i => list_short_codes db (i * L) L) =
        (all_short_codes db).map (fun p => p.1)) := by
  have main : ∀ m : Nat, m * L < 9223372036854775808 →
      (List.range m).flatMap (fun i => list_short_codes db (i * L) L) =
        ((all_short_codes db).map (fun p => p.1)).take (m * L) := by
    intro m
    induction m with
    | zero => intro _; simp
    | succ n ih =>
        intro hm
        have hnL : n * L < 9223372036854775808 :=
          lt_of_le_of_lt (Nat.mul_le_mul_right L (Nat.le_succ n)) hm
        have hLlt : L < 9223372036854775808 :=
          lt_of_le_of_lt (Nat.le_mul_of_pos_left L (Nat.succ_pos n)) hm
        rw [List.range_succ, List.flatMap_append, ih hnL]
        have hwin : list_short_codes db (n * L) L =
            ((((all_short_codes db).map (fun p => p.1)).drop (n * L)).take L) :=
          list_short_codes_take_drop db (n * L) L hnL hLlt
        rw [List.flatMap_cons, List.flatMap_nil, List.append_nil, hwin,
          Nat.succ_mul, List.take_add]
  refine ⟨main k hk, ?_⟩
  intro hlen
  rw [main k hk]
  exact List.take_of_length_le hlen

/-- Witness for C6: two windows of width 2 over the three codes of the
populated store cover all of them exactly once. -/
theorem list_short_codes_stable_windows_witness :
    (List.range 2).flatMap (fun i => list_short_codes dbEx (i * 2) 2) =
      ((all_short_codes dbEx).map (fun p => p.1)).take (2 * 2) ∧
    (((all_short_codes dbEx).map (fun p => p.1)).length ≤ 2 * 2 →
      (List.range 2).flatMap (fun i => list_short_codes dbEx (i * 2) 2) =
        (all_short_codes dbEx).map (fun p => p.1)) :=
  list_short_codes_stable_windows dbEx 2 2 (by omega) (by omega)

/-- Finding over a mapped list is mapping over a composed find. -/
theorem find_map {α β : Type} (f : α → β) (p : β → Bool) (l : List α) :
    (l.map f).find? p = (l.find? (fun x => p (f x))).map f := by
  induction l with
  | nil => rfl
  | cons x xs ih =>
      simp only [List.map_cons, List.find?_cons]
      cases hpx : p (f x) <;> simp [hpx, ih]

/-- C4: on a store where the alias code is fresh and the target id exists,
the first `insert_alias` succeeds and appends the mapping; the second call
with the same alias code fails with `Duplicate` and (the failed statement
inserting nothing) the first mapping remains in the store. -/
theorem insert_alias_second_duplicate (db : SqliteDb) (a : String) (id : Int)
    (hfresh : ∀ x ∈ db.aliases, x.alias_code ≠ a)
    (htarget : ∃ r ∈ db.urls, r.id = id) :
    ∃ db1 : SqliteDb,
      insert_alias db a id = Except.ok db1 ∧
      db1.aliases = db.aliases ++ [{ alias_code := a, target_id := id }] ∧
      db1.urls = db.urls ∧
      insert_alias db1 a id = Except.error DatabaseError.Duplicate ∧
      ({ alias_code := a, target_id := id } : AliasRow) ∈ db1.aliases := by
  have h1 : db.aliases.any (fun x => x.alias_code == a) = false := by
    simp only [List.any_eq_false, beq_iff_eq]
    exact hfresh
  have h2 : db.urls.any (fun r => r.id == id) = true := by
    simp only [List.any_eq_true, beq_iff_eq]
    exact htarget
  refine ⟨{ db with aliases := db.aliases ++ [{ alias_code := a, target_id := id }] },
    ?_, rfl, rfl, ?_, ?_⟩
  · simp [insert_alias, h1, h2]
  · have h3 : (db.aliases ++ [({ alias_code := a, target_id := id } : AliasRow)]).any
        (fun x => x.alias_code == a) = true := by
      simp [List.any_append]
    simp [insert_alias, h3, translate_insert_alias_error, containsSubstr_self]
  · exact List.mem_append_right _ (by simp)

/-- Witness for C4: aliasing code `eee555` to canonical id 1 in the
populated store, twice. -/
theorem insert_alias_second_duplicate_witness :
    ∃ db1 : SqliteDb,
      insert_alias dbEx "eee555" 1 = Except.ok db1 ∧
      db1.aliases = dbEx.aliases ++ [{ alias_code := "eee555", target_id := 1 }] ∧
      db1.urls = dbEx.urls ∧
      insert_alias db1 "eee555" 1 = Except.error DatabaseError.Duplicate ∧
      ({ alias_code := "eee555", target_id := 1 } : AliasRow) ∈ db1.aliases :=
  insert_alias_second_duplicate dbEx "eee555" 1 (by decide) (by decide)

/-- C5: loading a never-saved name yields the explicit-absence result
`none`; after any save, loading the name yields exactly the saved payload
(full replacement); and saving preserves the at-most-one-row-per-name
invariant. -/
theorem bloom_snapshot_load_save :
    (∀ (db : SqliteDb) (n : String),
        (∀ r ∈ db.bloom_snapshots, r.name ≠ n) →
        load_bloom_snapshot db n = Except.ok none) ∧
    (∀ (db : SqliteDb) (n : String) (d : List Nat) (now : Nat) (db' : SqliteDb),
        save_bloom_snapshot db n d now = Except.ok db' →
        load_bloom_snapshot db' n = Except.ok (some d)) ∧
    (∀ (db : SqliteDb) (n : String) (d : List Nat) (now : Nat) (db' : SqliteDb),
        save_bloom_snapshot db n d now = Except.ok db' →
        bloomNamesUnique db → bloomNamesUnique db') := by
  refine ⟨?_, ?_, ?_⟩
  · intro db n h
    have h1 : db.bloom_snapshots.find? (fun r => r.name == n) = none := by
      rw [List.find?_eq_none]
      intro r hr
      simpa using h r hr
    simp [load_bloom_snapshot, h1]
  · intro db n d now db' h
    unfold save_bloom_snapshot at h
    cases hany : db.bloom_snapshots.any (fun r => r.name == n) with
    | true =>
        rw [hany] at h
        have hdb' : db' = { db with bloom_snapshots := db.bloom_snapshots.map (fun r =>
            if r.name = n then { r with data := d, updated_at := now } else r) } := by
          simpa using h.symm
        subst hdb'
        unfold load_bloom_snapshot
        rw [show ({ db with bloom_snapshots := db.bloom_snapshots.map (fun r =>
            if r.name = n then { r with data := d, updated_at := now } else r) } :
            SqliteDb).bloom_snapshots = db.bloom_snapshots.map (fun r =>
            if r.name = n then { r with data := d, updated_at := now } else r) from rfl]
        rw [find_map]
        have hcong : (fun r : BloomRow =>
            (if r.name = n then { r with data := d, updated_at := now } else r).name == n) =
            (fun r : BloomRow => r.name == n) := by
          funext r
          by_cases hr : r.name = n <;> simp [hr]
        rw [hcong]
        obtain ⟨r0, hr0mem, hr0⟩ := List.any_eq_true.mp hany
        have hsome : (db.bloom_snapshots.find? (fun r => r.name == n)).isSome :=
          List.find?_isSome.mpr ⟨r0, hr0mem, hr0⟩
        obtain ⟨r1, hr1⟩ := Option.isSome_iff_exists.mp hsome
        rw [hr1]
        have hr1n : r1.name = n := by
          have := List.find?_some hr1
          simpa using this
        simp [hr1n]
    | false =>
        rw [hany] at h
        have hdb' : db' = { db with bloom_snapshots := db.bloom_snapshots ++
            [{ name := n, data := d, updated_at := now }] } := by
          simpa using h.symm
        subst hdb'
        unfold load_bloom_snapshot
        have hnone : db.bloom_snapshots.find? (fun r => r.name == n) = none := by
          rw [List.find?_eq_none]
          intro r hr
          have := List.any_eq_false.mp hany r hr
          simpa using this
        rw [show ({ db with bloom_snapshots := db.bloom_snapshots ++
            [{ name := n, data := d, updated_at := now }] } : SqliteDb).bloom_snapshots =
            db.bloom_snapshots ++ [{ name := n, data := d, updated_at := now }] from rfl]
        rw [find_append_of_none hnone]
        simp
  · intro db n d now db' h huniq
    unfold save_bloom_snapshot at h
    cases hany : db.bloom_snapshots.any (fun r => r.name == n) with
    | true =>
        rw [hany] at h
        have hdb' : db' = { db with bloom_snapshots := db.bloom_snapshots.map (fun r =>
            if r.name = n then { r with data := d, updated_at := now } else r) } := by
          simpa using h.symm
        subst hdb'
        unfold bloomNamesUnique at huniq ⊢
        rw [show ({ db with bloom_snapshots := db.bloom_snapshots.map (fun r =>
            if r.name = n then { r with data := d, updated_at := now } else r) } :
            SqliteDb).bloom_snapshots = db.bloom_snapshots.map (fun r =>
            if r.name = n then { r with data := d, updated_at := now } else r) from rfl]
        rw [List.pairwise_map]
        refine huniq.imp ?_
        intro r s hrs
        have hr : (if r.name = n then { r with data := d, updated_at := now } else r).name =
            r.name := by
          by_cases h1 : r.name = n <;> simp [h1]
        have hs : (if s.name = n then { s with data := d, updated_at := now } else s).name =
            s.name := by
          by_cases h1 : s.name = n <;> simp [h1]
        rw [hr, hs]
        exact hrs
    | false =>
        rw [hany] at h
        have hdb' : db' = { db with bloom_snapshots := db.bloom_snapshots ++
            [{ name := n, data := d, updated_at := now }] } := by
          simpa using h.symm
        subst hdb'
        unfold bloomNamesUnique at huniq ⊢
        rw [show ({ db with bloom_snapshots := db.bloom_snapshots ++
            [{ name := n, data := d, updated_at := now }] } : SqliteDb).bloom_snapshots =
            db.bloom_snapshots ++ [{ name := n, data := d, updated_at := now }] from rfl]
        rw [List.pairwise_append]
        refine ⟨huniq, by simp, ?_⟩
        intro r hr s hs
        have := List.any_eq_false.mp hany r hr
        have hrn : r.name ≠ n := by simpa using this
        have hsn : s.name = n := by
          simp only [List.mem_singleton] at hs
          rw [hs]
        rw [hsn]
        exact hrn

set_option maxRecDepth 100000 in
/-- Witness for C5: a never-saved name loads as `none` on the empty store,
and after overwriting `filterA` with `[3]` the load returns exactly `[3]`. -/
theorem bloom_snapshot_load_save_witness :
    load_bloom_snapshot dbEmpty "neverSaved" = Except.ok none ∧
    load_bloom_snapshot dbG "filterA" = Except.ok (some [3]) :=
  ⟨bloom_snapshot_load_save.1 dbEmpty "neverSaved" (by decide),
   bloom_snapshot_load_save.2.1 dbF "filterA" [3] 11 dbG (by decide)⟩

/-- C7: `insert_alias` fails whenever no canonical record carries the
target id (the foreign-key constraint rejects the row), and neither a
successful `insert_alias` nor a successful `insert_url` can break the
referential integrity of the alias table, so no operation creates a
dangling alias. -/
theorem insert_alias_referential_integrity :
    (∀ (db : SqliteDb) (a : String) (id : Int),
        (∀ r ∈ db.urls, r.id ≠ id) → ∃ e, insert_alias db a id = Except.error e) ∧
    (∀ (db : SqliteDb) (a : String) (id : Int) (db' : SqliteDb),
        insert_alias db a id = Except.ok db' → aliasIntegrity db → aliasIntegrity db') ∧
    (∀ (db : SqliteDb) (code url : String) (ru : UpsertResult × Urls) (db' : SqliteDb),
        insert_url db code url = Except.ok (ru, db') → aliasIntegrity db → aliasIntegrity db') := by
  refine ⟨?_, ?_, ?_⟩
  · intro db a id hid
    unfold insert_alias
    cases hany : db.aliases.any (fun x => x.alias_code == a) with
    | true => exact ⟨_, rfl⟩
    | false =>
        have h2 : db.urls.any (fun r => r.id == id) = false := by
          simp only [List.any_eq_false, beq_iff_eq]
          exact hid
        rw [h2]
        exact ⟨_, rfl⟩
  · intro db a id db' h hint
    unfold insert_alias at h
    cases hany : db.aliases.any (fun x => x.alias_code == a) with
    | true => rw [hany] at h; simp at h
    | false =>
        rw [hany] at h
        cases hurl : db.urls.any (fun r => r.id == id) with
        | false => rw [hurl] at h; simp at h
        | true =>
            rw [hurl] at h
            have hdb' : db' = { db with aliases := db.aliases ++
                [{ alias_code := a, target_id := id }] } := by
              simpa using h.symm
            subst hdb'
            intro x hx
            rcases List.mem_append.mp hx with hx | hx
            · exact hint x hx
            · simp only [List.mem_singleton] at hx
              subst hx
              obtain ⟨r, hr, hrid⟩ := List.any_eq_true.mp hurl
              exact ⟨r, hr, by simpa using hrid⟩
  · intro db code url ru db' h hint
    cases hany : db.urls.any (fun r => r.url_hash == sha256_bytes url) with
    | true =>
        cases hfind : db.urls.find? (fun r => r.url_hash == sha256_bytes url) with
        | none => simp [insert_url, hany, hfind] at h
        | some r =>
            simp only [insert_url, hany, hfind, if_true, Except.ok.injEq, Prod.mk.injEq] at h
            obtain ⟨-, hdb⟩ := h
            subst hdb
            exact hint
    | false =>
        cases hcode : db.urls.any (fun r => r.code == code) with
        | true => simp [insert_url, hany, hcode] at h
        | false =>
            simp only [insert_url, hany, hcode, if_false, Except.ok.injEq, Prod.mk.injEq,
              Bool.false_eq_true] at h
            obtain ⟨-, hdb⟩ := h
            subst hdb
            intro x hx
            obtain ⟨r, hr, hrid⟩ := hint x hx
            exact ⟨r, List.mem_append_left _ hr, hrid⟩

/-- Witness for C7: aliasing to the nonexistent canonical id 99 fails. -/
theorem insert_alias_referential_integrity_witness :
    ∃ e, insert_alias dbEx "xxx999" 99 = Except.error e :=
  insert_alias_referential_integrity.1 dbEx "xxx999" 99 (by decide)

set_option maxRecDepth 100000 in
/-- C8 counterexample: `aaa111` is an existing canonical code of `dbEx`,
yet inserting it as an alias for canonical id 2 succeeds instead of
failing, so alias codes are not validated against the canonical namespace
at write time. -/
theorem insert_alias_cross_namespace_counterexample :
    (∃ r ∈ dbEx.urls, r.code = "aaa111") ∧
    insert_alias dbEx "aaa111" 2 =
      Except.ok { dbEx with aliases := dbEx.aliases ++
        [{ alias_code := "aaa111", target_id := 2 }] } := by
  exact ⟨by decide, by decide⟩

/-- C8 (amended): `insert_alias` performs no validation against the
canonical namespace: an alias code that is fresh in the alias namespace and
targets an existing id is inserted successfully even when it already exists
as a canonical code, the cross-namespace collision being left to read-time
precedence. -/
theorem insert_alias_no_canonical_validation (db : SqliteDb) (a : String) (id : Int)
    (hfresh : ∀ x ∈ db.aliases, x.alias_code ≠ a)
    (htarget : ∃ r ∈ db.urls, r.id = id)
    (_hcanon : ∃ r ∈ db.urls, r.code = a) :
    insert_alias db a id =
      Except.ok { db with aliases := db.aliases ++ [{ alias_code := a, target_id := id }] } := by
  have h1 : db.aliases.any (fun x => x.alias_code == a) = false := by
    simp only [List.any_eq_false, beq_iff_eq]
    exact hfresh
  have h2 : db.urls.any (fun r => r.id == id) = true := by
    simp only [List.any_eq_true, beq_iff_eq]
    exact htarget
  simp [insert_alias, h1, h2]

/-- Witness for the amended C8 at the concrete collision `aaa111`. -/
theorem insert_alias_no_canonical_validation_witness :
    insert_alias dbEx "aaa111" 2 =
      Except.ok { dbEx with aliases := dbEx.aliases ++
        [{ alias_code := "aaa111", target_id := 2 }] } :=
  insert_alias_no_canonical_validation dbEx "aaa111" 2 (by decide) (by decide) (by decide)

end UrlShortener
